import Mathlib

/-!
Verification of the tiled-upscaling core of the FreeAiImageUpscaler8k
repository against its natural-language specification.

The development shallowly embeds, from the Python source:
  * `ImageProcessor.process_image_with_tiling`, `preprocess_image`,
    `postprocess_image` (src/imageUpscaler/utils/image_processor.py);
  * `ModelManager.load_model`, `unload_model` and the weight-key
    selection of `_load_realesrgan_model` / `_load_swinir_model`
    (src/imageUpscaler/models/model_manager.py);
  * `ModelDownloader.download_model` (src/imageUpscaler/utils/downloader.py).

Images are pixel-value functions over ℕ coordinates; machine floats of the
numeric pipeline are embedded as exact rationals; exceptions are embedded
as `Except`; stateful code is embedded as explicit state passing together
with event traces where the specification speaks about ordering of effects.
-/

namespace ImageUpscaler

/-! ## Images and the numeric pipeline -/

/-- A pixel grid: value at (row y, column x, channel ch).  The source keeps
images as `numpy` `uint8` arrays indexed `img[y, x, ch]`. -/
def Img : Type := ℕ → ℕ → ℕ → ℕ

/-- A model-input/output tensor in channel-first layout (ch, y, x), the
layout produced by `permute(2, 0, 1)` in `preprocess_image`. -/
def Tensor : Type := ℕ → ℕ → ℕ → ℚ

/-- The opaque model capability: maps the preprocessed tensor to the output
tensor, as `model(tile_tensor)` in the source. -/
def Model : Type := Tensor → Tensor

/-- `preprocess_image` per-value action (image_processor.py line 123):
`img.astype(np.float32) / 255.0`, embedded over exact rationals. -/
def preprocessVal (v : ℕ) : ℚ := (v : ℚ) / 255

/-- `np.clip(img, 0, 1)` per value (image_processor.py line 149). -/
def clip01 (q : ℚ) : ℚ := min (max q 0) 1

/-- `postprocess_image` per-value action (image_processor.py lines 149-153):
clip to [0,1], multiply by 255, convert to `uint8` (truncation toward zero;
the clipped value is nonnegative, so this is the floor). -/
def postprocessVal (q : ℚ) : ℕ := (Int.floor (clip01 q * 255)).toNat

/-- `preprocess_image` on a whole tile: normalize and permute to
channel-first layout (image_processor.py lines 123-127). -/
def preprocessTile (tile : Img) : Tensor :=
  fun ch yy xx => preprocessVal (tile yy xx ch)

/-- `postprocess_image` on a whole tensor: permute back to channel-last
layout and quantize (image_processor.py lines 145-153). -/
def postprocessTile (t : Tensor) : Img :=
  fun yy xx ch => postprocessVal (t ch yy xx)

/-! ## The tile grid -/

/-- Python `range(0, n, T)`: the grid origins `0, T, 2T, … < n`.  For
`T ≥ 1` its length is `⌈n/T⌉ = (n + T - 1) / T`, the `num_tiles`
computation of image_processor.py lines 199-200. -/
def rangeStep (n T : ℕ) : List ℕ :=
  (List.range ((n + T - 1) / T)).map (fun i => i * T)

/-- The tile visit order of the nested loops at image_processor.py
lines 211-212: `y` outer, `x` inner (row-major); elements are `(x, y)`. -/
def tileGrid (w h T : ℕ) : List (ℕ × ℕ) :=
  (rangeStep h T).flatMap (fun y => (rangeStep w T).map (fun x => (x, y)))

/-! ## Per-tile coordinate computations -/

/-- All coordinate quantities computed for one tile at grid origin (x, y),
named after the locals of `process_image_with_tiling`. -/
structure TileCalc where
  tile_x1 : ℕ
  tile_y1 : ℕ
  tile_x2 : ℕ
  tile_y2 : ℕ
  input_tile_w : ℕ
  input_tile_h : ℕ
  non_pad_x1 : ℕ
  non_pad_y1 : ℕ
  non_pad_x2 : ℕ
  non_pad_y2 : ℕ
  out_tile_x1 : ℕ
  out_tile_y1 : ℕ
  out_tile_x2 : ℕ
  out_tile_y2 : ℕ
  out_x1 : ℕ
  out_y1 : ℕ
  out_x2 : ℕ
  out_y2 : ℕ

/-- image_processor.py lines 214-256.  `max(0, x - P)` is ℕ truncated
subtraction `x - P`; likewise `non_pad_x1 = max(0, x - tile_x1)` with
`tile_x1 ≤ x` always. -/
def tileCalc (w h T P s x y : ℕ) : TileCalc :=
  let tile_x1 := x - P
  let tile_y1 := y - P
  let tile_x2 := min w (x + T + P)
  let tile_y2 := min h (y + T + P)
  let input_tile_w := tile_x2 - tile_x1
  let input_tile_h := tile_y2 - tile_y1
  let non_pad_x1 := x - tile_x1
  let non_pad_y1 := y - tile_y1
  let non_pad_x2 := min input_tile_w (non_pad_x1 + T)
  let non_pad_y2 := min input_tile_h (non_pad_y1 + T)
  { tile_x1 := tile_x1
    tile_y1 := tile_y1
    tile_x2 := tile_x2
    tile_y2 := tile_y2
    input_tile_w := input_tile_w
    input_tile_h := input_tile_h
    non_pad_x1 := non_pad_x1
    non_pad_y1 := non_pad_y1
    non_pad_x2 := non_pad_x2
    non_pad_y2 := non_pad_y2
    out_tile_x1 := non_pad_x1 * s
    out_tile_y1 := non_pad_y1 * s
    out_tile_x2 := non_pad_x2 * s
    out_tile_y2 := non_pad_y2 * s
    out_x1 := x * s
    out_y1 := y * s
    out_x2 := min (w * s) (x * s + T * s)
    out_y2 := min (h * s) (y * s + T * s) }

/-- Membership of an output pixel (py, px) in the destination rectangle the
tile at grid origin (x, y) writes (image_processor.py line 264 writes
`output[out_y1:out_y2, out_x1:out_x2]`). -/
def inDestRect (w h T P s x y py px : ℕ) : Prop :=
  (tileCalc w h T P s x y).out_y1 ≤ py ∧ py < (tileCalc w h T P s x y).out_y2 ∧
  (tileCalc w h T P s x y).out_x1 ≤ px ∧ px < (tileCalc w h T P s x y).out_x2

instance (w h T P s x y py px : ℕ) : Decidable (inDestRect w h T P s x y py px) := by
  unfold inDestRect; infer_instance

/-! ## Processing one tile -/

/-- The body of the per-tile `try` block, image_processor.py lines 222-264:
extract the padded tile, preprocess, run the model, postprocess, crop the
non-padded part scaled, and write it into the canvas at the destination
rectangle.  Pixels outside the destination rectangle keep their previous
canvas value (numpy slice assignment). -/
def writeTile (w h T P s : ℕ) (model : Model) (img : Img) (xy : ℕ × ℕ)
    (canvas : Img) : Img :=
  let c := tileCalc w h T P s xy.1 xy.2
  let tile : Img := fun ty tx ch => img (c.tile_y1 + ty) (c.tile_x1 + tx) ch
  let output_tile : Img := postprocessTile (model (preprocessTile tile))
  let tile_part : Img := fun j i ch =>
    output_tile (c.out_tile_y1 + j) (c.out_tile_x1 + i) ch
  fun py px ch =>
    if inDestRect w h T P s xy.1 xy.2 py px then
      tile_part (py - c.out_y1) (px - c.out_x1) ch
    else canvas py px ch

/-- The value `writeTile` stores at a covered destination pixel; it does not
depend on the previous canvas. -/
def writeVal (w h T P s : ℕ) (model : Model) (img : Img) (x y py px ch : ℕ) : ℕ :=
  let c := tileCalc w h T P s x y
  let tile : Img := fun ty tx ch0 => img (c.tile_y1 + ty) (c.tile_x1 + tx) ch0
  postprocessTile (model (preprocessTile tile))
    (c.out_tile_y1 + (py - c.out_y1)) (c.out_tile_x1 + (px - c.out_x1)) ch

/-! ## Progress reporting -/

/-- image_processor.py line 276: `progress = int(tiles_processed /
total_tiles * 100)` — exact-rational embedding of the float expression;
`int()` truncates and the value is nonnegative, hence the floor. -/
def progressVal (tiles_processed total_tiles : ℕ) : ℕ :=
  (Int.floor ((tiles_processed : ℚ) / (total_tiles : ℚ) * 100)).toNat

/-- The sequence of progress values reported for `n` visited tiles. -/
def progressListOf (total n : ℕ) : List ℕ :=
  (List.range n).map (fun i => progressVal (i + 1) total)

/-! ## The tiling loop -/

/-- The error surfaced by `process_image_with_tiling` (the outer handler at
image_processor.py lines 283-286 wraps any escaping exception). -/
inductive ProcErr where
  | imageProcessingError
deriving DecidableEq

/-- The value returned by `process_image_with_tiling`: the canvas with its
dimensions, plus the list of progress values passed to the callback. -/
structure RunResult where
  output_h : ℕ
  output_w : ℕ
  canvas : Img
  progress : List ℕ

/-- The tile loop, image_processor.py lines 208-278.  `fails xy = true`
models an exception raised inside the per-tile `try` block for tile `xy`:
it is re-raised when `tiles_processed == 0` (line 270) and otherwise
swallowed; in both surviving cases `tiles_processed` is incremented and the
progress callback runs (lines 273-278). -/
def runTiles (w h T P s : ℕ) (model : Model) (img : Img)
    (fails : ℕ × ℕ → Bool) (total : ℕ) :
    List (ℕ × ℕ) → ℕ → Img → List ℕ → Except ProcErr (ℕ × Img × List ℕ)
  | [], tp, canvas, prog => .ok (tp, canvas, prog)
  | xy :: rest, tp, canvas, prog =>
    if fails xy then
      if tp = 0 then .error .imageProcessingError
      else runTiles w h T P s model img fails total rest (tp + 1) canvas
        (prog ++ [progressVal (tp + 1) total])
    else runTiles w h T P s model img fails total rest (tp + 1)
      (writeTile w h T P s model img xy canvas)
      (prog ++ [progressVal (tp + 1) total])

/-- `process_image_with_tiling` (image_processor.py lines 164-286) with an
explicit per-tile failure oracle: zero-initialized output of size
`(h*s, w*s)` (lines 191-196), `total_tiles = num_tiles_x * num_tiles_y`
(lines 199-201), then the tile loop. -/
def processTiles (w h T P s : ℕ) (model : Model) (img : Img)
    (fails : ℕ × ℕ → Bool) : Except ProcErr RunResult :=
  let num_tiles_x := (w + T - 1) / T
  let num_tiles_y := (h + T - 1) / T
  let total_tiles := num_tiles_x * num_tiles_y
  (runTiles w h T P s model img fails total_tiles (tileGrid w h T) 0
      (fun _ _ _ => 0) []).map
    (fun r => { output_h := h * s, output_w := w * s,
                canvas := r.2.1, progress := r.2.2 })

/-- `process_image_with_tiling` on an exception-free run. -/
def process_image_with_tiling (w h T P s : ℕ) (model : Model) (img : Img) :
    Except ProcErr RunResult :=
  processTiles w h T P s model img (fun _ => false)

/-- One loop step as a canvas transformer: a failing tile leaves the canvas
unchanged, a succeeding one performs its placement. -/
def condWrite (w h T P s : ℕ) (model : Model) (img : Img)
    (fails : ℕ × ℕ → Bool) (canvas : Img) (xy : ℕ × ℕ) : Img :=
  if fails xy then canvas else writeTile w h T P s model img xy canvas

/-! ## Model manager (src/imageUpscaler/models/model_manager.py)

The manager's state is its two fields `loaded_model` (represented by the
name of the model whose weights the handle holds) and
`current_model_name`.  Effects on device memory are recorded as an event
trace so that ordering properties can be stated. -/

/-- Supported architecture kinds, dispatched at model_manager.py
lines 117-126 by substring match on the model name. -/
inductive Arch where
  | realesrgan
  | realesrgan_anime
  | swinir
deriving DecidableEq

/-- The error raised by `load_model` / `unload_model` (all failures are
wrapped into `ModelError`). -/
inductive MMError where
  | modelError
deriving DecidableEq

/-- Device-memory-relevant events emitted while loading/unloading, in
source order: `unload` is the `del self.loaded_model` +
`torch.cuda.empty_cache()` of `unload_model` (lines 254-259);
`constructArch` is the architecture construction (`RRDBNet(...)` at
lines 156-159, `SwinIR(...)` at lines 210-222); `loadWeights` is
`torch.load` + `load_state_dict` (lines 163-174, 226-229); `toDevice` is
`model.to(self.device)` (lines 181, 236). -/
inductive MMEvent where
  | unload (name : String)
  | constructArch (name : String)
  | loadWeights (name : String)
  | toDevice (name : String)
deriving DecidableEq

/-- The model name an event concerns. -/
def MMEvent.modelName : MMEvent → String
  | .unload n => n
  | .constructArch n => n
  | .loadWeights n => n
  | .toDevice n => n

/-- Manager state: fields `loaded_model` and `current_model_name`
(model_manager.py lines 48-49). -/
structure MMState where
  loaded_model : Option String
  current_model_name : Option String
deriving DecidableEq

/-- Environment supplying the outcomes of the external calls made by
`load_model`. -/
structure LoadEnv where
  /-- `config.get_model_info(name)` returns an entry (lines 103-107). -/
  modelKnown : String → Bool
  /-- `os.path.exists(model_path)` (line 111). -/
  fileOnDisk : String → Bool
  /-- the delegated `download_model` succeeds (line 113). -/
  downloadOk : String → Bool
  /-- the substring dispatch of lines 117-126; `none` is the
  "Unsupported model type" branch. -/
  archOf : String → Option Arch
  /-- `load_state_dict(..., strict=True)` succeeds (lines 174, 229). -/
  weightsLoadOk : String → Bool

/-- `unload_model` (model_manager.py lines 246-269): from a loaded state,
release the handle and clear both fields; otherwise a no-op. -/
def unload_model (st : MMState) : MMState × List MMEvent :=
  match st.loaded_model with
  | none => (st, [])
  | some m => (⟨none, none⟩, [.unload m])

/-- The fresh-load phase of `load_model` after any unload
(model_manager.py lines 102-136): model lookup, on-disk check plus
on-demand download, architecture dispatch, weight deserialization, move to
device.  Returns the emitted events alongside success or `ModelError`. -/
def loadSteps (env : LoadEnv) (name : String) : Except MMError Unit × List MMEvent :=
  if env.modelKnown name = false then (.error .modelError, [])
  else if env.fileOnDisk name = false ∧ env.downloadOk name = false then
    (.error .modelError, [])
  else
    match env.archOf name with
    | none => (.error .modelError, [])
    | some _ =>
      if env.weightsLoadOk name then
        (.ok (), [.constructArch name, .loadWeights name, .toDevice name])
      else (.error .modelError, [.constructArch name, .loadWeights name])

/-- `load_model` (model_manager.py lines 87-141).  If the requested model
is already loaded, return the existing handle with no effect (lines 93-95);
otherwise unload any current model first (lines 98-100), then run the
fresh-load phase and, on success, store the new handle (lines 128-130). -/
def load_model (env : LoadEnv) (st : MMState) (name : String) :
    MMState × Except MMError String × List MMEvent :=
  if st.loaded_model.isSome ∧ st.current_model_name = some name then
    (st, .ok name, [])
  else
    let (st1, ev1) :=
      if st.loaded_model.isSome then unload_model st else (st, [])
    match loadSteps env name with
    | (.ok _, evs) => (⟨some name, some name⟩, .ok name, ev1 ++ evs)
    | (.error e, evs) =>
      -- on failure st1 keeps `loaded_model = none`: the manager never
      -- retains a half-constructed handle
      (st1, .error e, ev1 ++ evs)

/-- Which models' weights hold device memory after an event:
`constructArch` makes a model's weights resident, `unload` releases them. -/
def residentStep (res : List String) : MMEvent → List String
  | .unload n => res.erase n
  | .constructArch n => n :: res
  | .loadWeights _ => res
  | .toDevice _ => res

/-- Device residency after a trace of events, starting from `init`. -/
def residentAfter (init : List String) (evs : List MMEvent) : List String :=
  evs.foldl residentStep init

/-- Counts the weight-deserialization events in a trace. -/
def countLoadWeights (evs : List MMEvent) : ℕ :=
  evs.countP (fun e => match e with | .loadWeights _ => true | _ => false)

/-! ## Weight-key selection (C8) -/

/-- Key selection of `_load_realesrgan_model` (model_manager.py
lines 166-171): `'params_ema' if 'params_ema' in loadnet else 'params'`. -/
def realesrgan_keyname (loadnetKeys : List String) : String :=
  if "params_ema" ∈ loadnetKeys then "params_ema" else "params"

/-- Key selection of `_load_swinir_model` (model_manager.py line 229):
`loadnet['params']`, unconditionally. -/
def swinir_keyname (_loadnetKeys : List String) : String := "params"

/-- The weight-file key each architecture's loader deserializes from. -/
def weightKeyname : Arch → List String → String
  | .realesrgan, keys => realesrgan_keyname keys
  | .realesrgan_anime, keys => realesrgan_keyname keys
  | .swinir, keys => swinir_keyname keys

/-! ## Downloader (src/imageUpscaler/utils/downloader.py) -/

/-- Outcome of one `session.get` attempt (downloader.py line 69):
`ok`, or one of the transient transport failures the retry loop catches
(`requests.exceptions.RequestException` covers connection errors,
timeouts, and the `HTTPError` raised by `raise_for_status` on an error
status such as 5xx). -/
inductive AttemptOutcome where
  | ok
  | connError
  | timeout
  | httpError
deriving DecidableEq

/-- Environment for one `download_model` call. -/
structure DLEnv where
  /-- `os.path.exists(model_path)` before downloading (line 53). -/
  fileExists : Bool
  /-- outcome of the n-th `session.get` attempt (0-based). -/
  attempts : ℕ → AttemptOutcome
  /-- the `iter_content` streaming loop completes (lines 94-104). -/
  streamOk : Bool

/-- The error raised by `download_model` on failure. -/
inductive DLErr where
  | networkError
deriving DecidableEq

/-- Observable outcome of a `download_model` call. -/
structure DLResult where
  result : Except DLErr Unit
  /-- whether the model file is on disk afterwards (partial files are
  removed by every failure handler, lines 115-144). -/
  fileOnDisk : Bool
  /-- number of `session.get` attempts performed. -/
  getAttempts : ℕ
  /-- the `time.sleep(retry_delay)` durations, in order (line 75, with
  `retry_delay *= 2` at line 76). -/
  sleeps : List ℕ

/-- The retry loop of downloader.py lines 66-78, with `fuel` the number of
loop iterations left (`retries - attempt`): on a transient failure, sleep
and double the delay unless this was the last attempt, in which case the
exception propagates.  Returns (attempts made, sleeps, got a response). -/
def downloadGetLoop (env : DLEnv) : ℕ → ℕ → ℕ → List ℕ → ℕ × List ℕ × Bool
  | 0, attempt, _, sleeps => (attempt, sleeps, false)
  | fuel + 1, attempt, retry_delay, sleeps =>
    match env.attempts attempt with
    | .ok => (attempt + 1, sleeps, true)
    | _ =>
      if fuel = 0 then (attempt + 1, sleeps, false)
      else downloadGetLoop env fuel (attempt + 1) (retry_delay * 2)
        (sleeps ++ [retry_delay])

/-- `download_model` (downloader.py lines 34-144): return immediately when
the file already exists (lines 53-57); otherwise `retries = 3`,
`retry_delay = 2` (lines 63-64), run the retry loop, then stream the
response body to the file; every failure path removes any partially
written file and raises `NetworkError`. -/
def download_model (env : DLEnv) : DLResult :=
  if env.fileExists then
    { result := .ok (), fileOnDisk := true, getAttempts := 0, sleeps := [] }
  else
    let retries := 3
    let retry_delay := 2
    match downloadGetLoop env retries 0 retry_delay [] with
    | (n, sleeps, true) =>
      if env.streamOk then
        { result := .ok (), fileOnDisk := true, getAttempts := n, sleeps := sleeps }
      else
        { result := .error .networkError, fileOnDisk := false, getAttempts := n,
          sleeps := sleeps }
    | (n, sleeps, false) =>
      { result := .error .networkError, fileOnDisk := false, getAttempts := n,
        sleeps := sleeps }

/-! ## Basic lemmas -/

/-- The exact-rational progress formula agrees with natural floor
division. -/
lemma progressVal_eq_div (tp total : ℕ) :
    progressVal tp total = tp * 100 / total := by
  unfold progressVal
  rw [Int.floor_toNat]
  have h : (tp : ℚ) / (total : ℚ) * 100 = ((tp * 100 : ℕ) : ℚ) / ((total : ℕ) : ℚ) := by
    push_cast; ring
  rw [h, Nat.floor_div_eq_div]

lemma mem_rangeStep {n T x : ℕ} :
    x ∈ rangeStep n T ↔ ∃ i, i < (n + T - 1) / T ∧ i * T = x := by
  simp [rangeStep, List.mem_map, List.mem_range]

lemma mem_tileGrid {w h T : ℕ} {xy : ℕ × ℕ} :
    xy ∈ tileGrid w h T ↔ xy.1 ∈ rangeStep w T ∧ xy.2 ∈ rangeStep h T := by
  obtain ⟨x, y⟩ := xy
  simp only [tileGrid, List.mem_flatMap, List.mem_map]
  constructor
  · rintro ⟨y', hy', x', hx', heq⟩
    obtain ⟨rfl, rfl⟩ := Prod.mk.injEq .. ▸ heq
    exact ⟨hx', hy'⟩
  · rintro ⟨hx, hy⟩
    exact ⟨y, hy, x, hx, rfl⟩

/-- 1-dimensional coverage: every output coordinate `p < n * s` lies in the
scaled core interval of the grid origin `(p / (T * s)) * T`. -/
lemma cover_exists_1d {n T s p : ℕ} (hT : 1 ≤ T) (hs : 1 ≤ s) (hp : p < n * s) :
    (p / (T * s)) * T ∈ rangeStep n T ∧
    (p / (T * s)) * T * s ≤ p ∧ p < (p / (T * s)) * T * s + T * s := by
  have hTs : 0 < T * s := Nat.mul_pos hT hs
  have h1 := Nat.div_add_mod p (T * s)
  have h2 : p % (T * s) < T * s := Nat.mod_lt _ hTs
  have hqle : p / (T * s) * T * s ≤ p := by
    calc p / (T * s) * T * s = p / (T * s) * (T * s) := by ring
    _ ≤ p := Nat.div_mul_le_self p (T * s)
  have hqlt : p < p / (T * s) * T * s + T * s := by
    have : p / (T * s) * T * s = (T * s) * (p / (T * s)) := by ring
    omega
  refine ⟨?_, hqle, hqlt⟩
  rw [mem_rangeStep]
  refine ⟨p / (T * s), ?_, rfl⟩
  have hqn : p / (T * s) * T < n := by
    by_contra hcon
    push_neg at hcon
    have hns : n * s ≤ p / (T * s) * T * s := Nat.mul_le_mul_right s hcon
    omega
  have hn1 : 1 ≤ n := by
    rcases Nat.eq_zero_or_pos n with h | h
    · subst h; simp at hp
    · exact h
  rw [Nat.lt_iff_add_one_le, Nat.le_div_iff_mul_le hT]
  have hexp : (p / (T * s) + 1) * T = p / (T * s) * T + T := by ring
  omega

/-- 1-dimensional uniqueness: a grid origin whose scaled core interval
contains `p` is determined by `p`. -/
lemma cover_unique_1d {T s p i : ℕ}
    (hlo : i * T * s ≤ p) (hhi : p < i * T * s + T * s) :
    i = p / (T * s) := by
  have hlo' : i * (T * s) ≤ p := by rw [← Nat.mul_assoc]; exact hlo
  have hhi' : p < (i + 1) * (T * s) := by
    have : (i + 1) * (T * s) = i * T * s + T * s := by ring
    omega
  exact (Nat.div_eq_of_lt_le hlo' hhi').symm

/-- The destination rectangle, spelled out in the grid-origin
arithmetic. -/
lemma inDestRect_iff {w h T P s x y py px : ℕ} :
    inDestRect w h T P s x y py px ↔
      y * s ≤ py ∧ py < min (h * s) (y * s + T * s) ∧
      x * s ≤ px ∧ px < min (w * s) (x * s + T * s) := by
  simp [inDestRect, tileCalc]

/-- 2-dimensional coverage: every pixel of the output canvas lies in the
destination rectangle of a tile of the grid. -/
lemma dest_cover_exists {w h T P s py px : ℕ} (hT : 1 ≤ T) (hs : 1 ≤ s)
    (hpy : py < h * s) (hpx : px < w * s) :
    ∃ xy, xy ∈ tileGrid w h T ∧ inDestRect w h T P s xy.1 xy.2 py px := by
  obtain ⟨hxmem, hxlo, hxhi⟩ := cover_exists_1d hT hs hpx
  obtain ⟨hymem, hylo, hyhi⟩ := cover_exists_1d hT hs hpy
  refine ⟨((px / (T * s)) * T, (py / (T * s)) * T), ?_, ?_⟩
  · exact mem_tileGrid.mpr ⟨hxmem, hymem⟩
  · exact inDestRect_iff.mpr ⟨hylo, lt_min hpy hyhi, hxlo, lt_min hpx hxhi⟩

/-- 2-dimensional uniqueness: at most one tile of the grid writes any given
pixel. -/
lemma dest_cover_unique {w h T P s py px : ℕ}
    {u v : ℕ × ℕ} (hu : u ∈ tileGrid w h T) (hv : v ∈ tileGrid w h T)
    (hcu : inDestRect w h T P s u.1 u.2 py px)
    (hcv : inDestRect w h T P s v.1 v.2 py px) : u = v := by
  obtain ⟨hux, huy⟩ := mem_tileGrid.mp hu
  obtain ⟨hvx, hvy⟩ := mem_tileGrid.mp hv
  obtain ⟨iu, _, hiu⟩ := mem_rangeStep.mp hux
  obtain ⟨ju, _, hju⟩ := mem_rangeStep.mp huy
  obtain ⟨iv, _, hiv⟩ := mem_rangeStep.mp hvx
  obtain ⟨jv, _, hjv⟩ := mem_rangeStep.mp hvy
  obtain ⟨hylo, hyhi, hxlo, hxhi⟩ := inDestRect_iff.mp hcu
  obtain ⟨hylo', hyhi', hxlo', hxhi'⟩ := inDestRect_iff.mp hcv
  have hix : iu = px / (T * s) := by
    apply cover_unique_1d (by rw [hiu]; exact hxlo)
    rw [hiu]; exact lt_of_lt_of_le hxhi (min_le_right _ _)
  have hjy : ju = py / (T * s) := by
    apply cover_unique_1d (by rw [hju]; exact hylo)
    rw [hju]; exact lt_of_lt_of_le hyhi (min_le_right _ _)
  have hix' : iv = px / (T * s) := by
    apply cover_unique_1d (by rw [hiv]; exact hxlo')
    rw [hiv]; exact lt_of_lt_of_le hxhi' (min_le_right _ _)
  have hjy' : jv = py / (T * s) := by
    apply cover_unique_1d (by rw [hjv]; exact hylo')
    rw [hjv]; exact lt_of_lt_of_le hyhi' (min_le_right _ _)
  have : u = (iu * T, ju * T) := by
    apply Prod.ext <;> simp [hiu, hju]
  have : v = (iv * T, jv * T) := by
    apply Prod.ext <;> simp [hiv, hjv]
  apply Prod.ext
  · rw [← hiu, ← hiv, hix, hix']
  · rw [← hju, ← hjv, hjy, hjy']

/-! ## Canvas fold lemmas -/

lemma writeTile_covered {w h T P s : ℕ} {model : Model} {img : Img}
    {xy : ℕ × ℕ} {canvas : Img} {py px ch : ℕ}
    (hc : inDestRect w h T P s xy.1 xy.2 py px) :
    writeTile w h T P s model img xy canvas py px ch =
      writeVal w h T P s model img xy.1 xy.2 py px ch := by
  simp [writeTile, writeVal, hc]

lemma writeTile_not_covered {w h T P s : ℕ} {model : Model} {img : Img}
    {xy : ℕ × ℕ} {canvas : Img} {py px ch : ℕ}
    (hc : ¬ inDestRect w h T P s xy.1 xy.2 py px) :
    writeTile w h T P s model img xy canvas py px ch = canvas py px ch := by
  simp [writeTile, hc]

/-- If no tile of `l` both succeeds and covers the pixel, the loop leaves
the pixel unchanged. -/
lemma foldl_condWrite_untouched {w h T P s : ℕ} {model : Model} {img : Img}
    {fails : ℕ × ℕ → Bool} {py px ch : ℕ} :
    ∀ (l : List (ℕ × ℕ)) (canvas : Img),
      (∀ u ∈ l, inDestRect w h T P s u.1 u.2 py px → fails u = true) →
      l.foldl (condWrite w h T P s model img fails) canvas py px ch =
        canvas py px ch := by
  intro l
  induction l with
  | nil => intro canvas _; rfl
  | cons u rest ih =>
    intro canvas hno
    rw [List.foldl_cons,
      ih _ (fun v hv hcov => hno v (List.mem_cons_of_mem _ hv) hcov)]
    by_cases hf : fails u
    · simp [condWrite, hf]
    · have hnc : ¬ inDestRect w h T P s u.1 u.2 py px := by
        intro hcov
        exact hf (hno u (List.mem_cons_self u rest) hcov)
      simp [condWrite, hf, writeTile_not_covered hnc]

/-- If exactly one tile of `l` covers the pixel and that tile succeeds, the
loop stores that tile's placement value at the pixel. -/
lemma foldl_condWrite_unique {w h T P s : ℕ} {model : Model} {img : Img}
    {fails : ℕ × ℕ → Bool} {t : ℕ × ℕ} {py px ch : ℕ} :
    ∀ (l : List (ℕ × ℕ)) (canvas : Img),
      t ∈ l → inDestRect w h T P s t.1 t.2 py px →
      (∀ u ∈ l, inDestRect w h T P s u.1 u.2 py px → u = t) →
      fails t = false →
      l.foldl (condWrite w h T P s model img fails) canvas py px ch =
        writeVal w h T P s model img t.1 t.2 py px ch := by
  intro l
  induction l with
  | nil => intro canvas ht; simp at ht
  | cons u rest ih =>
    intro canvas ht hcov huniq hft
    rw [List.foldl_cons]
    by_cases htrest : t ∈ rest
    · exact ih _ htrest hcov
        (fun v hv hc => huniq v (List.mem_cons_of_mem _ hv) hc) hft
    · have htu : t = u := by
        rcases List.mem_cons.mp ht with heq | hmem
        · exact heq
        · exact absurd hmem htrest
      subst htu
      have hnone : ∀ v ∈ rest, inDestRect w h T P s v.1 v.2 py px →
          fails v = true := by
        intro v hv hc
        have hvt : v = t := huniq v (List.mem_cons_of_mem _ hv) hc
        subst hvt
        exact absurd hv htrest
      rw [foldl_condWrite_untouched rest _ hnone]
      simp [condWrite, hft, writeTile_covered hcov]

/-! ## Loop-correspondence lemmas -/

lemma progress_shift (total tp n : ℕ) :
    (List.range (n + 1)).map (fun i => progressVal (tp + i + 1) total) =
      progressVal (tp + 1) total ::
        (List.range n).map (fun i => progressVal (tp + 1 + i + 1) total) := by
  rw [List.range_succ_eq_map, List.map_cons, List.map_map]
  refine congrArg₂ _ (by norm_num) ?_
  have hf : (fun i => progressVal (tp + i + 1) total) ∘ Nat.succ =
      fun i => progressVal (tp + 1 + i + 1) total := by
    funext i
    simp only [Function.comp]
    have harg : tp + Nat.succ i + 1 = tp + 1 + i + 1 := by omega
    rw [harg]
  rw [hf]

/-- Once at least one tile has been processed, the loop can no longer abort:
it runs to completion, applying the conditional writes and reporting one
progress value per tile. -/
lemma runTiles_ok {w h T P s : ℕ} {model : Model} {img : Img}
    {fails : ℕ × ℕ → Bool} {total : ℕ} :
    ∀ (l : List (ℕ × ℕ)) (tp : ℕ) (canvas : Img) (prog : List ℕ), 1 ≤ tp →
      runTiles w h T P s model img fails total l tp canvas prog =
        .ok (tp + l.length,
             l.foldl (condWrite w h T P s model img fails) canvas,
             prog ++ (List.range l.length).map
               (fun i => progressVal (tp + i + 1) total)) := by
  intro l
  induction l with
  | nil => intro tp canvas prog _; simp [runTiles]
  | cons xy rest ih =>
    intro tp canvas prog htp
    rw [runTiles]
    by_cases hf : fails xy
    · rw [if_pos hf, if_neg (by omega), ih _ _ _ (by omega)]
      refine congrArg _ (congrArg₂ _ (by simp; omega) (congrArg₂ _ ?_ ?_))
      · simp [condWrite, hf]
      · rw [List.length_cons, progress_shift, List.append_assoc]
        rfl
    · rw [if_neg hf, ih _ _ _ (by omega)]
      refine congrArg _ (congrArg₂ _ (by simp; omega) (congrArg₂ _ ?_ ?_))
      · simp [condWrite, hf]
      · rw [List.length_cons, progress_shift, List.append_assoc]
        rfl

lemma rangeStep_cons {n T : ℕ} (hn : 1 ≤ n) (hT : 1 ≤ T) :
    ∃ rest, rangeStep n T = 0 :: rest := by
  have hk : 1 ≤ (n + T - 1) / T := by
    rw [Nat.le_div_iff_mul_le hT]; omega
  obtain ⟨m, hm⟩ : ∃ m, (n + T - 1) / T = m + 1 := ⟨(n + T - 1) / T - 1, by omega⟩
  refine ⟨((List.range m).map Nat.succ).map (fun i => i * T), ?_⟩
  rw [rangeStep, hm, List.range_succ_eq_map]
  simp

lemma tileGrid_cons {w h T : ℕ} (hw : 1 ≤ w) (hh : 1 ≤ h) (hT : 1 ≤ T) :
    ∃ rest, tileGrid w h T = (0, 0) :: rest := by
  obtain ⟨rx, hrx⟩ := rangeStep_cons hw hT
  obtain ⟨ry, hry⟩ := rangeStep_cons hh hT
  refine ⟨rx.map (fun x => (x, (0 : ℕ))) ++
    ry.flatMap (fun y => (rangeStep w T).map (fun x => (x, y))), ?_⟩
  rw [tileGrid, hry, List.flatMap_cons, hrx, List.map_cons]
  rfl

lemma progressListOf_succ (total n : ℕ) :
    progressListOf total (n + 1) =
      progressVal 1 total ::
        (List.range n).map (fun i => progressVal (1 + i + 1) total) := by
  have h := progress_shift total 0 n
  simpa [progressListOf] using h

/-- A run that does not fail on the first tile completes with the folded
canvas of size `(h*s, w*s)` and one progress value per tile. -/
lemma processTiles_ok {w h T P s : ℕ} {model : Model} {img : Img}
    {fails : ℕ × ℕ → Bool} (hw : 1 ≤ w) (hh : 1 ≤ h) (hT : 1 ≤ T)
    (hfirst : fails (0, 0) = false) :
    processTiles w h T P s model img fails =
      .ok ⟨h * s, w * s,
        (tileGrid w h T).foldl (condWrite w h T P s model img fails)
          (fun _ _ _ => 0),
        progressListOf (((w + T - 1) / T) * ((h + T - 1) / T))
          (tileGrid w h T).length⟩ := by
  obtain ⟨rest, hgrid⟩ := tileGrid_cons hw hh hT
  simp only [processTiles, hgrid]
  rw [runTiles, if_neg (by rw [hfirst]; simp)]
  rw [runTiles_ok rest 1 _ _ le_rfl]
  have hcw : condWrite w h T P s model img fails (fun _ _ _ => 0) (0, 0) =
      writeTile w h T P s model img (0, 0) (fun _ _ _ => 0) := by
    unfold condWrite
    rw [hfirst]
    simp
  rw [List.foldl_cons, hcw, List.length_cons, progressListOf_succ]
  simp [Except.map]

/-! ## Progress arithmetic -/

lemma progressVal_mono {a b : ℕ} (total : ℕ) (hab : a ≤ b) :
    progressVal a total ≤ progressVal b total := by
  rw [progressVal_eq_div, progressVal_eq_div]
  exact Nat.div_le_div_right (Nat.mul_le_mul_right _ hab)

lemma progressVal_total {total : ℕ} (h : 1 ≤ total) :
    progressVal total total = 100 := by
  rw [progressVal_eq_div]
  exact Nat.mul_div_cancel_left 100 h

lemma progressListOf_length (total n : ℕ) :
    (progressListOf total n).length = n := by
  simp [progressListOf]

lemma progressListOf_pairwise (total n : ℕ) :
    (progressListOf total n).Pairwise (· ≤ ·) := by
  unfold progressListOf
  rw [List.pairwise_map]
  exact (List.pairwise_lt_range n).imp (fun hij => progressVal_mono total (by omega))

lemma progressListOf_getLast (total n : ℕ) (hn : 1 ≤ n) :
    (progressListOf total n).getLast? = some (progressVal n total) := by
  unfold progressListOf
  obtain ⟨m, rfl⟩ : ∃ m, n = m + 1 := ⟨n - 1, by omega⟩
  rw [List.range_succ, List.map_append, List.map_singleton, List.getLast?_concat]

lemma progressListOf_eval (total n : ℕ) :
    progressListOf total n = (List.range n).map (fun i => (i + 1) * 100 / total) := by
  simp [progressListOf, progressVal_eq_div]

lemma numTiles_pos {n T : ℕ} (hn : 1 ≤ n) (hT : 1 ≤ T) :
    1 ≤ (n + T - 1) / T := by
  rw [Nat.le_div_iff_mul_le hT]; omega

lemma tileGrid_length (w h T : ℕ) :
    (tileGrid w h T).length = ((w + T - 1) / T) * ((h + T - 1) / T) := by
  unfold tileGrid
  rw [List.length_flatMap]
  simp only [Function.comp_def, List.length_map]
  rw [List.map_const', List.sum_replicate, smul_eq_mul]
  simp [rangeStep, Nat.mul_comm]

/-! ## The identity-model roundtrip -/

lemma postprocess_preprocess {v : ℕ} (hv : v ≤ 255) :
    postprocessVal (preprocessVal v) = v := by
  unfold postprocessVal preprocessVal clip01
  have h0 : (0 : ℚ) ≤ (v : ℚ) / 255 := by positivity
  have h1 : (v : ℚ) / 255 ≤ 1 := by
    rw [div_le_one (by norm_num)]
    exact_mod_cast hv
  rw [max_eq_left h0, min_eq_left h1, div_mul_cancel₀ _ (by norm_num : (255 : ℚ) ≠ 0),
    Int.floor_natCast, Int.toNat_natCast]

/-- With the identity model at scale 1, the value a tile places at a pixel
of its destination rectangle is the original pixel value. -/
lemma writeVal_identity {w h T P : ℕ} {img : Img} {x y py px ch : ℕ}
    (hcov : inDestRect w h T P 1 x y py px) (hv : img py px ch ≤ 255) :
    writeVal w h T P 1 (fun t => t) img x y py px ch = img py px ch := by
  obtain ⟨hylo, hyhi, hxlo, hxhi⟩ := inDestRect_iff.mp hcov
  simp only [mul_one] at hylo hyhi hxlo hxhi
  unfold writeVal postprocessTile preprocessTile
  simp only [tileCalc, mul_one]
  have hyidx : y - P + (y - (y - P) + (py - y)) = py := by omega
  have hxidx : x - P + (x - (x - P) + (px - x)) = px := by omega
  rw [hyidx, hxidx]
  exact postprocess_preprocess hv

lemma min_mul_right (a b s : ℕ) : min (a * s) (b * s) = min a b * s := by
  rcases le_total a b with hab | hab
  · rw [min_eq_left (Nat.mul_le_mul_right s hab), min_eq_left hab]
  · rw [min_eq_right (Nat.mul_le_mul_right s hab), min_eq_right hab]

/-! ## Claim theorems for the tiling engine -/

/-- C1: For every image width `w ≥ 1`, height `h ≥ 1`, tile size `T ≥ 1`,
padding `P ≥ 0` and integer scale `s ≥ 1`, the destination rectangles
written by `process_image_with_tiling` — whose bounds equal
`[x*s, min w (x+T) * s) × [y*s, min h (y+T) * s)` for the row-major grid
origins — form an exact partition of the `(w*s) × (h*s)` output canvas:
every output pixel lies in exactly one tile's destination rectangle. -/
theorem dest_rects_partition_canvas (w h T P s : ℕ)
    (_hw : 1 ≤ w) (_hh : 1 ≤ h) (hT : 1 ≤ T) (hs : 1 ≤ s)
    (py px : ℕ) (hpy : py < h * s) (hpx : px < w * s) :
    (∀ x y, (tileCalc w h T P s x y).out_x2 = min w (x + T) * s ∧
            (tileCalc w h T P s x y).out_y2 = min h (y + T) * s) ∧
    ∃! xy : ℕ × ℕ, xy ∈ tileGrid w h T ∧ inDestRect w h T P s xy.1 xy.2 py px := by
  constructor
  · intro x y
    constructor
    · show min (w * s) (x * s + T * s) = min w (x + T) * s
      rw [← min_mul_right, add_mul]
    · show min (h * s) (y * s + T * s) = min h (y + T) * s
      rw [← min_mul_right, add_mul]
  · obtain ⟨xy, hmem, hcov⟩ := dest_cover_exists (P := P) hT hs hpy hpx
    exact ⟨xy, ⟨hmem, hcov⟩,
      fun u ⟨humem, hucov⟩ => dest_cover_unique humem hmem hucov hcov⟩

theorem dest_rects_partition_canvas_witness :
    (1 : ℕ) ≤ 3 ∧ (1 : ℕ) ≤ 2 ∧ (1 : ℕ) ≤ 2 ∧ (5 : ℕ) < 3 * 2 ∧
    (∃! xy : ℕ × ℕ, xy ∈ tileGrid 3 2 2 ∧ inDestRect 3 2 2 1 2 xy.1 xy.2 1 5) :=
  ⟨by decide, by decide, by decide, by decide,
    (dest_rects_partition_canvas 3 2 2 1 2 (by decide) (by decide) (by decide)
      (by decide) 1 5 (by decide) (by decide)).2⟩

/-- C2: For every input image, every tile size `T ≥ 1` and padding `P`,
including values that do not divide the image dimensions, running
`process_image_with_tiling` with an identity model of scale 1 returns the
input image pixel-for-pixel (on `uint8` pixel values, i.e. values ≤ 255). -/
theorem identity_model_reproduces_input (w h T P : ℕ) (img : Img)
    (hT : 1 ≤ T) (himg : ∀ y x ch, img y x ch ≤ 255)
    (py px ch : ℕ) (hpy : py < h) (hpx : px < w) :
    ∃ res, process_image_with_tiling w h T P 1 (fun t => t) img = .ok res ∧
      res.output_h = h ∧ res.output_w = w ∧
      res.canvas py px ch = img py px ch := by
  have hw : 1 ≤ w := by omega
  have hh : 1 ≤ h := by omega
  rw [process_image_with_tiling, processTiles_ok hw hh hT rfl]
  refine ⟨_, rfl, by simp, by simp, ?_⟩
  show (tileGrid w h T).foldl
    (condWrite w h T P 1 (fun t => t) img (fun _ => false))
    (fun _ _ _ => 0) py px ch = img py px ch
  have hpy1 : py < h * 1 := by omega
  have hpx1 : px < w * 1 := by omega
  obtain ⟨t, htmem, htcov⟩ := dest_cover_exists (P := P) hT le_rfl hpy1 hpx1
  rw [foldl_condWrite_unique (tileGrid w h T) _ htmem htcov
    (fun u humem hucov => dest_cover_unique humem htmem hucov htcov) rfl]
  exact writeVal_identity htcov (himg py px ch)

theorem identity_model_reproduces_input_witness :
    (1 : ℕ) ≤ 2 ∧ (∀ y x ch : ℕ, (fun _ _ _ => 7 : Img) y x ch ≤ 255) ∧
    (∃ res, process_image_with_tiling 3 2 2 1 1 (fun t => t) (fun _ _ _ => 7) = .ok res ∧
      res.output_h = 2 ∧ res.output_w = 3 ∧ res.canvas 1 2 0 = 7) :=
  ⟨by decide, fun _ _ _ => by show (7 : ℕ) ≤ 255; decide,
    identity_model_reproduces_input 3 2 2 1 (fun _ _ _ => 7) (by decide)
      (fun _ _ _ => by show (7 : ℕ) ≤ 255; decide) 1 2 0 (by decide) (by decide)⟩

/-- C3: An exception while processing a tile other than the first is caught
and not propagated, leaving that tile's destination region zero-filled in
the returned canvas, while an exception on the very first tile — the grid
head `(0, 0)` — aborts the run with an `ImageProcessingError`. -/
theorem tile_failure_isolation (w h T P s : ℕ) (model : Model) (img : Img)
    (fails : ℕ × ℕ → Bool) (hw : 1 ≤ w) (hh : 1 ≤ h) (hT : 1 ≤ T) :
    (tileGrid w h T).head? = some (0, 0) ∧
    (fails (0, 0) = true →
      processTiles w h T P s model img fails = .error .imageProcessingError) ∧
    (fails (0, 0) = false →
      ∃ res, processTiles w h T P s model img fails = .ok res ∧
        ∀ t ∈ tileGrid w h T, fails t = true →
          ∀ py px ch, inDestRect w h T P s t.1 t.2 py px →
            res.canvas py px ch = 0) := by
  obtain ⟨rest, hgrid⟩ := tileGrid_cons hw hh hT
  refine ⟨by rw [hgrid]; rfl, ?_, ?_⟩
  · intro hf
    simp only [processTiles, hgrid]
    rw [runTiles, if_pos hf, if_pos rfl]
    rfl
  · intro hf
    rw [processTiles_ok hw hh hT hf]
    refine ⟨_, rfl, ?_⟩
    intro t htmem htfail py px ch hcov
    show (tileGrid w h T).foldl
      (condWrite w h T P s model img fails) (fun _ _ _ => 0) py px ch = 0
    rw [foldl_condWrite_untouched (tileGrid w h T) _ ?_]
    intro u humem hucov
    have hut : u = t := dest_cover_unique humem htmem hucov hcov
    rw [hut]
    exact htfail

theorem tile_failure_isolation_witness :
    processTiles 3 1 2 0 1 (fun t => t) (fun _ _ _ => 0) (fun _ => true) =
      .error .imageProcessingError :=
  (tile_failure_isolation 3 1 2 0 1 (fun t => t) (fun _ _ _ => 0) (fun _ => true)
    (by decide) (by decide) (by decide)).2.1 rfl

/-- C10: When a tile other than the first fails, the loop still counts it
and reports progress for it; for every run that does not fail on the first
tile, the callback fires exactly once per grid cell with non-decreasing
values ending at 100, and the progress sequence and returned canvas
dimensions are identical to those of a fully successful run. -/
theorem failed_tiles_indistinguishable_progress (w h T P s : ℕ) (model : Model)
    (img : Img) (fails : ℕ × ℕ → Bool) (hw : 1 ≤ w) (hh : 1 ≤ h) (hT : 1 ≤ T)
    (hfirst : fails (0, 0) = false) :
    ∃ res res0,
      processTiles w h T P s model img fails = .ok res ∧
      processTiles w h T P s model img (fun _ => false) = .ok res0 ∧
      res.progress = res0.progress ∧
      res.output_h = res0.output_h ∧ res.output_w = res0.output_w ∧
      res.progress.length = (tileGrid w h T).length ∧
      res.progress.Pairwise (· ≤ ·) ∧
      res.progress.getLast? = some 100 := by
  rw [processTiles_ok hw hh hT hfirst, processTiles_ok hw hh hT rfl]
  have hlen : (tileGrid w h T).length = ((w + T - 1) / T) * ((h + T - 1) / T) :=
    tileGrid_length w h T
  have htot : 1 ≤ ((w + T - 1) / T) * ((h + T - 1) / T) :=
    Nat.one_le_iff_ne_zero.mpr (Nat.mul_ne_zero
      (Nat.one_le_iff_ne_zero.mp (numTiles_pos hw hT))
      (Nat.one_le_iff_ne_zero.mp (numTiles_pos hh hT)))
  refine ⟨_, _, rfl, rfl, rfl, rfl, rfl, progressListOf_length _ _, ?_, ?_⟩
  · exact progressListOf_pairwise _ _
  · show (progressListOf (((w + T - 1) / T) * ((h + T - 1) / T))
      (tileGrid w h T).length).getLast? = some 100
    rw [progressListOf_getLast _ _ (by omega), hlen,
      progressVal_total htot]

theorem failed_tiles_indistinguishable_progress_witness :
    ∃ res res0,
      processTiles 3 2 2 1 1 (fun t => t) (fun _ _ _ => 0)
        (fun xy => decide (xy = (2, 0))) = .ok res ∧
      processTiles 3 2 2 1 1 (fun t => t) (fun _ _ _ => 0)
        (fun _ => false) = .ok res0 ∧
      res.progress = res0.progress ∧
      res.output_h = res0.output_h ∧ res.output_w = res0.output_w ∧
      res.progress.length = (tileGrid 3 2 2).length ∧
      res.progress.Pairwise (· ≤ ·) ∧
      res.progress.getLast? = some 100 :=
  failed_tiles_indistinguishable_progress 3 2 2 1 1 (fun t => t) (fun _ _ _ => 0)
    (fun xy => decide (xy = (2, 0))) (by decide) (by decide) (by decide) (by decide)

/-- C4 counterexample: on a 600×400 image with tile size 256, padding 16
and scale 2, the reported progress sequence is not [17, 33, 50, 67, 83,
100] as the claim states (the code floors `tiles_processed/total*100`, so
the first value is 16, not 17, and the fourth is 66, not 67). -/
theorem reported_progress_counterexample :
    ∃ res, processTiles 600 400 256 16 2 (fun t => t) (fun _ _ _ => 0)
        (fun _ => false) = .ok res ∧
      res.progress ≠ [17, 33, 50, 67, 83, 100] := by
  rw [processTiles_ok (by decide) (by decide) (by decide) rfl]
  refine ⟨_, rfl, ?_⟩
  show progressListOf (((600 + 256 - 1) / 256) * ((400 + 256 - 1) / 256))
      (tileGrid 600 400 256).length ≠ _
  rw [progressListOf_eval, tileGrid_length]
  decide

/-- C4 amended: the 600×400 / T=256 / P=16 / s=2 run visits the 3×2 = 6
grid cells in row-major order (y outer, x inner), and the progress values
passed to the callback are 16, 33, 50, 66, 83, 100 — the floor of
`tiles_processed/total*100` after each tile. -/
theorem reported_progress_sequence (model : Model) (img : Img) :
    tileGrid 600 400 256 =
      [(0, 0), (256, 0), (512, 0), (0, 256), (256, 256), (512, 256)] ∧
    ∃ res, processTiles 600 400 256 16 2 model img (fun _ => false) = .ok res ∧
      res.progress = [16, 33, 50, 66, 83, 100] := by
  refine ⟨by decide, ?_⟩
  rw [processTiles_ok (by decide) (by decide) (by decide) rfl]
  refine ⟨_, rfl, ?_⟩
  show progressListOf (((600 + 256 - 1) / 256) * ((400 + 256 - 1) / 256))
      (tileGrid 600 400 256).length = _
  rw [progressListOf_eval, tileGrid_length]
  decide

/-- C9: For an image of width 257 with tile size 256 and scale 4 (any
padding, any height, any row), the final column's tile at x = 256 has core
width `min 256 (257 - 256) = 1`, and the crop taken from its model output
and placed into the canvas has width exactly `1 * 4 = 4` pixels — as does
its destination rectangle — not `256 * 4`. -/
theorem edge_tile_crop_width (P h y : ℕ) :
    rangeStep 257 256 = [0, 256] ∧
    min 256 (257 - 256) = 1 ∧
    (tileCalc 257 h 256 P 4 256 y).non_pad_x2 -
      (tileCalc 257 h 256 P 4 256 y).non_pad_x1 = 1 ∧
    (tileCalc 257 h 256 P 4 256 y).out_tile_x2 -
      (tileCalc 257 h 256 P 4 256 y).out_tile_x1 = 4 ∧
    (tileCalc 257 h 256 P 4 256 y).out_x2 -
      (tileCalc 257 h 256 P 4 256 y).out_x1 = 4 := by
  refine ⟨by decide, by decide, ?_, ?_, ?_⟩ <;> simp [tileCalc] <;> omega

/-! ## Model-manager lemmas -/

/-- Every event emitted by the fresh-load phase concerns the requested
model. -/
lemma loadSteps_names (env : LoadEnv) (name : String) :
    ∀ e ∈ (loadSteps env name).2, e.modelName = name := by
  intro e he
  unfold loadSteps at he
  by_cases h1 : env.modelKnown name = false
  · rw [if_pos h1] at he; simp at he
  · rw [if_neg h1] at he
    by_cases h2 : env.fileOnDisk name = false ∧ env.downloadOk name = false
    · rw [if_pos h2] at he; simp at he
    · rw [if_neg h2] at he
      rcases harch : env.archOf name with _ | a
      · rw [harch] at he; simp at he
      · rw [harch] at he
        by_cases h4 : env.weightsLoadOk name
        · rw [if_pos h4] at he
          simp only [List.mem_cons, List.not_mem_nil, or_false] at he
          rcases he with rfl | rfl | rfl <;> rfl
        · rw [if_neg h4] at he
          simp only [List.mem_cons, List.not_mem_nil, or_false] at he
          rcases he with rfl | rfl <;> rfl

/-- A model that is not resident stays non-resident along any trace whose
events all concern other models. -/
lemma not_resident_of_names {A : String} :
    ∀ (l : List MMEvent) (init : List String), A ∉ init →
      (∀ e ∈ l, e.modelName ≠ A) →
      A ∉ residentAfter init l := by
  intro l
  induction l with
  | nil => intro init hA _; exact hA
  | cons e rest ih =>
    intro init hA hnames
    show A ∉ List.foldl residentStep (residentStep init e) rest
    apply ih
    · cases e with
      | unload n => exact fun hmem => hA (List.mem_of_mem_erase hmem)
      | constructArch n =>
        intro hmem
        rcases List.mem_cons.mp hmem with heq | hmem'
        · exact hnames _ (List.mem_cons_self _ _) (by simp [MMEvent.modelName, heq])
        · exact hA hmem'
      | loadWeights n => exact hA
      | toDevice n => exact hA
    · exact fun e' he' => hnames e' (List.mem_cons_of_mem _ he')

/-- Swapping from a loaded model `A` to a different model `B` emits the
`unload A` event first, followed only by events concerning `B`. -/
lemma load_model_swap_trace (env : LoadEnv) (A B : String) (hAB : A ≠ B) :
    (load_model env ⟨some A, some A⟩ B).2.2 = .unload A :: (loadSteps env B).2 := by
  unfold load_model
  rw [if_neg (by rintro ⟨_, hc⟩; exact hAB (Option.some.inj hc))]
  rcases hls : loadSteps env B with ⟨res, evs⟩
  cases res <;> simp [unload_model, hls]

/-! ## Claim theorems for the model manager -/

/-- C5: When `load_model` is called with a name different from the
currently loaded model, the current model is released (the `unload` event
comes first in the effect trace) before the new model's weights are
constructed, so at no point during the swap are both models' device
memories simultaneously resident. -/
theorem model_swap_no_double_residency (env : LoadEnv) (A B : String)
    (hAB : A ≠ B) :
    (load_model env ⟨some A, some A⟩ B).2.2.head? = some (.unload A) ∧
    ∀ k, ¬ (A ∈ residentAfter [A] ((load_model env ⟨some A, some A⟩ B).2.2.take k) ∧
            B ∈ residentAfter [A] ((load_model env ⟨some A, some A⟩ B).2.2.take k)) := by
  rw [load_model_swap_trace env A B hAB]
  refine ⟨rfl, ?_⟩
  intro k
  cases k with
  | zero =>
    rintro ⟨_, hB⟩
    rw [List.take_zero] at hB
    exact hAB (List.mem_singleton.mp hB).symm
  | succ k' =>
    rintro ⟨hA, _⟩
    rw [List.take_succ_cons] at hA
    have hA' : A ∈ List.foldl residentStep (residentStep [A] (.unload A))
        (List.take k' (loadSteps env B).2) := hA
    refine not_resident_of_names _ _ ?_ ?_ hA'
    · show A ∉ residentStep [A] (.unload A)
      simp [residentStep]
    · intro e he
      rw [loadSteps_names env B e (List.mem_of_mem_take he)]
      exact Ne.symm hAB

theorem model_swap_no_double_residency_witness :
    ("a" : String) ≠ "b" ∧
    (load_model ⟨fun _ => true, fun _ => true, fun _ => true,
        fun _ => some .realesrgan, fun _ => true⟩
      ⟨some "a", some "a"⟩ "b").2.2.head? = some (.unload "a") ∧
    ¬ (("a" : String) ∈ residentAfter ["a"]
        ((load_model ⟨fun _ => true, fun _ => true, fun _ => true,
            fun _ => some .realesrgan, fun _ => true⟩
          ⟨some "a", some "a"⟩ "b").2.2.take 2) ∧
       ("b" : String) ∈ residentAfter ["a"]
        ((load_model ⟨fun _ => true, fun _ => true, fun _ => true,
            fun _ => some .realesrgan, fun _ => true⟩
          ⟨some "a", some "a"⟩ "b").2.2.take 2)) :=
  ⟨by decide,
    (model_swap_no_double_residency _ "a" "b" (by decide)).1,
    (model_swap_no_double_residency _ "a" "b" (by decide)).2 2⟩

/-- C7: Calling `load_model` twice consecutively with the same model name
performs weight deserialization only once: the first call emits exactly one
`loadWeights` event, and the second call detects the model is already
loaded and returns the existing handle with no events at all. -/
theorem load_model_idempotent (env : LoadEnv) (name : String)
    (h1 : env.modelKnown name = true)
    (h2 : env.fileOnDisk name = true ∨ env.downloadOk name = true)
    (h3 : (env.archOf name).isSome = true)
    (h4 : env.weightsLoadOk name = true) :
    ∃ tr1,
      load_model env ⟨none, none⟩ name = (⟨some name, some name⟩, .ok name, tr1) ∧
      countLoadWeights tr1 = 1 ∧
      load_model env ⟨some name, some name⟩ name =
        (⟨some name, some name⟩, .ok name, []) ∧
      countLoadWeights (tr1 ++ []) = 1 := by
  obtain ⟨a, ha⟩ := Option.isSome_iff_exists.mp h3
  have hsteps : loadSteps env name =
      (.ok (), [.constructArch name, .loadWeights name, .toDevice name]) := by
    unfold loadSteps
    rw [if_neg (by simp [h1]), if_neg (by rintro ⟨hd, hk⟩; rcases h2 with h | h <;>
      simp_all), ha, if_pos h4]
  refine ⟨[.constructArch name, .loadWeights name, .toDevice name], ?_, ?_, ?_, ?_⟩
  · unfold load_model
    rw [if_neg (by rintro ⟨hs, _⟩; simp at hs)]
    simp [hsteps]
  · simp [countLoadWeights, List.countP_cons]
  · unfold load_model
    rw [if_pos ⟨rfl, rfl⟩]
  · simp [countLoadWeights, List.countP_cons]

theorem load_model_idempotent_witness :
    ∃ tr1,
      load_model ⟨fun _ => true, fun _ => true, fun _ => true,
          fun _ => some .realesrgan, fun _ => true⟩ ⟨none, none⟩ "m" =
        (⟨some "m", some "m"⟩, .ok "m", tr1) ∧
      countLoadWeights tr1 = 1 ∧
      load_model ⟨fun _ => true, fun _ => true, fun _ => true,
          fun _ => some .realesrgan, fun _ => true⟩ ⟨some "m", some "m"⟩ "m" =
        (⟨some "m", some "m"⟩, .ok "m", []) ∧
      countLoadWeights (tr1 ++ []) = 1 :=
  load_model_idempotent _ "m" rfl (Or.inl rfl) rfl rfl

/-- C8 counterexample: the claim that every supported architecture's loader
prefers the EMA parameter set fails for SwinIR — with both keys present in
the weight file, `_load_swinir_model` deserializes from `params`, not
`params_ema`. -/
theorem ema_preference_counterexample :
    ¬ (weightKeyname Arch.swinir ["params_ema", "params"] = "params_ema") := by
  decide

/-- C8 amended: when the weight file contains the EMA parameter set, the
RealESRGAN loaders (standard and anime) deserialize from it in preference
to the standard set; the SwinIR loader always deserializes from the
standard `params` set regardless. -/
theorem ema_preference_by_architecture (keys : List String)
    (hema : "params_ema" ∈ keys) :
    weightKeyname Arch.realesrgan keys = "params_ema" ∧
    weightKeyname Arch.realesrgan_anime keys = "params_ema" ∧
    weightKeyname Arch.swinir keys = "params" := by
  simp [weightKeyname, realesrgan_keyname, swinir_keyname, hema]

theorem ema_preference_by_architecture_witness :
    ("params_ema" : String) ∈ ["params_ema", "params"] ∧
    weightKeyname Arch.realesrgan ["params_ema", "params"] = "params_ema" ∧
    weightKeyname Arch.realesrgan_anime ["params_ema", "params"] = "params_ema" ∧
    weightKeyname Arch.swinir ["params_ema", "params"] = "params" :=
  ⟨by decide, ema_preference_by_architecture _ (by decide)⟩

/-! ## Claim theorem for the downloader -/

/-- C6: On transient transport failures (connection error, timeout, HTTP
error status), `download_model` retries the request up to 3 attempts with
exponential backoff starting at 2 seconds (sleeping 2s then 4s); on any
ultimate failure no partial file remains on disk and a `NetworkError` is
raised. -/
theorem download_retry_and_cleanup (env : DLEnv) (hf : env.fileExists = false) :
    (download_model env).getAttempts ≤ 3 ∧
    ((download_model env).sleeps = [] ∨ (download_model env).sleeps = [2] ∨
      (download_model env).sleeps = [2, 4]) ∧
    (∀ e, (download_model env).result = .error e →
      e = .networkError ∧ (download_model env).fileOnDisk = false) ∧
    ((env.attempts 0 ≠ .ok ∧ env.attempts 1 ≠ .ok ∧ env.attempts 2 ≠ .ok) →
      (download_model env).result = .error .networkError ∧
      (download_model env).sleeps = [2, 4] ∧
      (download_model env).fileOnDisk = false) := by
  rcases h0 : env.attempts 0 <;> rcases h1 : env.attempts 1 <;>
    rcases h2 : env.attempts 2 <;> rcases hs : env.streamOk <;>
      simp [download_model, downloadGetLoop, hf, h0, h1, h2, hs]

theorem download_retry_and_cleanup_witness :
    (DLEnv.fileExists ⟨false, fun _ => .timeout, true⟩ = false) ∧
    (download_model ⟨false, fun _ => .timeout, true⟩).result =
      .error .networkError ∧
    (download_model ⟨false, fun _ => .timeout, true⟩).sleeps = [2, 4] ∧
    (download_model ⟨false, fun _ => .timeout, true⟩).fileOnDisk = false :=
  ⟨rfl, (download_retry_and_cleanup ⟨false, fun _ => .timeout, true⟩ rfl).2.2.2
    (by refine ⟨?_, ?_, ?_⟩ <;> decide)⟩

end ImageUpscaler
